import Mathlib

/-!
Formal model of the simulation core of "Dynamite Valley" (pyweek26),
a shallow embedding of `src/game.py`.  Python floats are embedded as
rationals, machine integers as `Int`/`Nat`, object references as `Nat`
identifiers, and the fallible/asserting paths as `Except`/`Option`.
Each definition is translated from the named source function.
-/

/-! ## Timer (game.py `class Timer`, lines 297-345)

A timer's mutable state.  The completion callback (`end_callback` in the
source) is represented by the boolean `cbTruthy`: what the callback
returns when invoked (the source inspects this truth value at line 332,
`if self.callback():`).  Callback side effects on the clock's timer list
are not modelled; deregistration (`cancel`) is performed by the clock
loop below, exactly where `Timer.advance` performs it. -/
structure TimerSt where
  id : Nat
  interval : ℚ
  elapsed : ℚ
  paused : Bool
  cbTruthy : Bool
  deriving Repr, DecidableEq

/-- Translation of `Timer.advance(dt)` for `dt = 1` (the only value the
clock ever passes, line 286).  Returns the updated timer, whether the
timer completed (and so called `self.cancel()`, deregistering itself),
and the number of times the completion callback was invoked: the source
runs `if self.callback(): self.callback()` (lines 332-333), which calls
the callback once and then a second time when its result is truthy. -/
def timerAdvance1 (t : TimerSt) : TimerSt × Bool × Nat :=
  if t.paused then (t, false, 0)
  else if t.interval ≤ t.elapsed then (t, false, 0)
  else
    let e := t.elapsed + 1
    if e < t.interval then ({ t with elapsed := e }, false, 0)
    else ({ t with elapsed := t.interval }, true, if t.cbTruthy then 2 else 1)

/-! ## Clock (game.py `class Clock`, lines 222-294) -/

/-- Clock state: `fired` records, in order, one entry (the timer's id)
per completion-callback invocation; `periodicCalls` counts invocations
of the clock's own periodic callback. -/
structure ClockSt where
  accumulator : ℚ
  elapsedC : ℚ
  counter : Nat
  next : ℚ
  interval : ℚ
  paused : Bool
  timers : List TimerSt
  periodicCalls : Nat
  fired : List Nat
  deriving Repr, DecidableEq

/-- Translation of the timer loop `for t in self.timers: t.advance(1)`
(lines 285-286) with CPython list-iterator semantics: the iterator
holds a bare index into the live list, so when a completing timer
removes itself (`Timer.cancel`, `self.clock.timers.remove(self)`; the
timer appears exactly once, by the assert in `Timer.reset`), the
elements after it shift left and the iterator's next step lands past
the element that followed it.  The loop stops once the index reaches
the live list's length; since the index grows and the list never does,
the initial length bounds the iteration count, and is used as fuel. -/
def advanceTimersAux : Nat → List TimerSt → Nat → List TimerSt × List Nat
  | 0, timers, _ => (timers, [])
  | fuel + 1, timers, i =>
    match timers.get? i with
    | none => (timers, [])
    | some t =>
      let r := timerAdvance1 t
      if r.2.1 then
        let rest := advanceTimersAux fuel (timers.eraseIdx i) (i + 1)
        (rest.1, List.replicate r.2.2 t.id ++ rest.2)
      else
        let rest := advanceTimersAux fuel (timers.set i r.1) (i + 1)
        (rest.1, List.replicate r.2.2 t.id ++ rest.2)

/-- The timer loop of `Clock.advance`, started at index 0. -/
def advanceTimers (timers : List TimerSt) : List TimerSt × List Nat :=
  advanceTimersAux timers.length timers 0

/-- One iteration of the `while self.accumulator >= self.next` loop body
in `Clock.advance` (lines 275-286): bump the counter, subtract `next`
from the accumulator, reset `next` to the interval, fire the periodic
callback, then advance the timers. -/
def clockTickOnce (st : ClockSt) : ClockSt :=
  let st' := { st with
    counter := st.counter + 1
    periodicCalls := st.periodicCalls + 1
    accumulator := st.accumulator - st.next
    next := st.interval }
  let r := advanceTimers st'.timers
  { st' with timers := r.1, fired := st'.fired ++ r.2 }

/-- The `while self.accumulator >= self.next` loop, run for at most
`fuel` iterations (each iteration strictly decreases the accumulator by
at least the positive interval, so the fuel below always suffices). -/
def clockLoop : Nat → ClockSt → ClockSt
  | 0, st => st
  | fuel + 1, st =>
    if st.next ≤ st.accumulator then clockLoop fuel (clockTickOnce st) else st

/-- An upper bound on the number of loop iterations of `Clock.advance`
for positive `next` and `interval` (the constructor asserts a nonzero
interval): each iteration drains at least `1 / (next.den * interval.den)`
from an accumulator of at most `accumulator.num` whole units. -/
def clockFuel (st : ClockSt) : Nat :=
  st.accumulator.num.natAbs * st.next.den * st.interval.den + 1

/-- Translation of `Clock.advance(dt)` (lines 267-287): a no-op while
paused, otherwise accumulate `dt` and run the tick loop. -/
def clockAdvance (st : ClockSt) (dt : ℚ) : ClockSt :=
  if st.paused then st
  else
    let st' := { st with accumulator := st.accumulator + dt, elapsedC := st.elapsedC + dt }
    clockLoop (clockFuel st') st'

/-! ## Live-dam counter (game.py `Level.on_dam_spawned` /
`Level.on_dam_destroyed` lines 508-514, `Dam.on_blasted` lines 1026-1031) -/

/-- The slice of `Level` state driving level completion: the live-dam
counter and the number of times `Level.complete` has been invoked. -/
structure DamLevelSt where
  dams_remaining : Int
  completions : Nat
  deriving Repr, DecidableEq

/-- Translation of `Level.on_dam_spawned` (lines 508-509). -/
def on_dam_spawned (st : DamLevelSt) : DamLevelSt :=
  { st with dams_remaining := st.dams_remaining + 1 }

/-- Translation of `Level.on_dam_destroyed` (lines 511-514): decrement
the counter; `if not self.dams_remaining: self.complete()` invokes the
completion routine exactly when the decremented counter equals zero
(Python truthiness of an integer). -/
def on_dam_destroyed (st : DamLevelSt) : DamLevelSt :=
  if st.dams_remaining - 1 = 0 then
    { dams_remaining := st.dams_remaining - 1, completions := st.completions + 1 }
  else { st with dams_remaining := st.dams_remaining - 1 }

/-- A level together with the occupancy entries relevant to dams:
`tile_occupant` as an association list from coordinates to entity ids. -/
structure DamWorld where
  occ : List ((Int × Int) × Nat)
  levelSt : DamLevelSt
  deriving Repr, DecidableEq

/-- Occupant lookup (`level.tile_occupant[coord]`). -/
def occLookup (occ : List ((Int × Int) × Nat)) (pos : Int × Int) : Option Nat :=
  (occ.find? (fun e => e.1 = pos)).map Prod.snd

/-- Translation of `Dam.on_blasted` (lines 1026-1031) restricted to grid
and counter state: `self.position = None` runs the position setter's
departure branch for `old_occupant == self` (lines 786-789), clearing the
dam's `tile_occupant` entry, then `level.on_dam_destroyed(self)` runs.
(Actor deletion and particle spawns are rendering, out of scope.) -/
def damOnBlasted (w : DamWorld) (pos : Int × Int) : DamWorld :=
  { occ := w.occ.filter (fun e => e.1 ≠ pos)
    levelSt := on_dam_destroyed w.levelSt }

/-- Iterated spawns: the level-load phase registers each dam once. -/
def spawnDams : Nat → DamLevelSt → DamLevelSt
  | 0, st => st
  | n + 1, st => spawnDams n (on_dam_spawned st)

/-- Iterated destructions, in play order. -/
def destroyDams : Nat → DamLevelSt → DamLevelSt
  | 0, st => st
  | k + 1, st => on_dam_destroyed (destroyDams k st)

/-- The initial level state (`Level.__init__`, lines 486-490):
`dams_remaining = 0` and `complete` not yet invoked. -/
def damLevelInit : DamLevelSt := { dams_remaining := 0, completions := 0 }

/-! ## Player bomb inventory (game.py `Player.MAX_BOMBS` line 1120,
`Player.push_bomb` lines 1194-1207, `Player.pop_bomb` lines 1209-1218) -/

/-- Translation of `Player.MAX_BOMBS`. -/
def MAX_BOMBS : Nat := 2

/-- Translation of `Player.push_bomb` restricted to the bomb list (the
remaining statements drive sprites): refuse when the list already holds
`MAX_BOMBS` entries, otherwise append and succeed. -/
def push_bomb (bombs : List Nat) (b : Nat) : List Nat × Bool :=
  if bombs.length = MAX_BOMBS then (bombs, false)
  else (bombs ++ [b], true)

/-- Translation of `Player.pop_bomb` restricted to the bomb list:
`self.bombs.pop()` removes and returns the last element, or `None` when
the list is empty. -/
def pop_bomb (bombs : List Nat) : List Nat × Option Nat :=
  match bombs.getLast? with
  | none => (bombs, none)
  | some b => (bombs.dropLast, some b)

/-- The operations that mutate `Player.bombs`. -/
inductive BombOp where
  | push (b : Nat)
  | pop
  deriving Repr, DecidableEq

/-- Run a sequence of inventory operations from an empty inventory
(`self.bombs = []` in `Player.__init__`, line 1154). -/
def runBombs (ops : List BombOp) : List Nat :=
  ops.foldl (fun bs op => match op with
    | .push b => (push_bomb bs b).1
    | .pop => (pop_bomb bs).1) []

/-! ## Standing/occupant symmetry (game.py `Entity.standing_on` /
`Entity.occupant` fields, `Bomb.on_fling_failed` lines 1902-1909) -/

/-- The two mutual-reference fields of an entity.  Entities are
identified by their index in a world list. -/
structure EntSt where
  standing_on : Option Nat
  occupant : Option Nat
  deriving Repr, DecidableEq

/-- Read `a.standing_on` in a world. -/
def standingOnOf (w : List EntSt) (a : Nat) : Option Nat :=
  match w.get? a with
  | some e => e.standing_on
  | none => none

/-- Read `b.occupant` in a world. -/
def occupantOf (w : List EntSt) (b : Nat) : Option Nat :=
  match w.get? b with
  | some e => e.occupant
  | none => none

/-- Write `p.occupant = None`. -/
def clearOccupant (w : List EntSt) (p : Nat) : List EntSt :=
  match w.get? p with
  | some e => w.set p { e with occupant := none }
  | none => w

/-- Translation of `Bomb.on_fling_failed` (lines 1902-1909): it reads
`standing_on = self.standing_on`; if set, it runs
`standing_on.occupant = None`; the final statement `standing_on = None`
rebinds the local variable only, so `self.standing_on` is left as it
was. -/
def bombOnFlingFailed (w : List EntSt) (self : Nat) : List EntSt :=
  match standingOnOf w self with
  | some p => clearOccupant w p
  | none => w

/-- The standing/occupant symmetry invariant of the spec, for one pair:
`A.standing_on == B` iff `B.occupant == A`. -/
def symPair (w : List EntSt) (a b : Nat) : Prop :=
  standingOnOf w a = some b ↔ occupantOf w b = some a

/-- The standing/occupant symmetry invariant over a whole world. -/
def symmetricWorld (w : List EntSt) : Prop :=
  ∀ a, a < w.length → ∀ b, b < w.length → symPair w a b

/-! ## Position-setter arrival (game.py `Entity.position` setter,
lines 807-826) -/

/-- Entity fields read by the arrival section of the position setter:
`is_platform`, `occupant`, the id of this entity's own `claim` token,
and `standing_on` (written when stepping onto a platform). -/
structure Ent7 where
  is_platform : Bool
  occupant : Option Nat
  claim : Option Nat
  standing_on : Option Nat
  deriving Repr, DecidableEq

/-- The world the position setter runs against: the entity table and
the `level.tile_occupant` dictionary. -/
structure World7 where
  ents : List Ent7
  occ : List ((Int × Int) × Nat)
  deriving Repr, DecidableEq

/-- Dictionary store `level.tile_occupant[pos] = e`. -/
def occSet (occ : List ((Int × Int) × Nat)) (pos : Int × Int) (e : Nat) :
    List ((Int × Int) × Nat) :=
  (pos, e) :: occ.filter fun q => q.1 ≠ pos

/-- Field update helper for the entity table. -/
def entsModify (ents : List Ent7) (i : Nat) (f : Ent7 → Ent7) : List Ent7 :=
  match ents.get? i with
  | some e => ents.set i (f e)
  | none => ents

/-- Outcome of a position-setter run: either the updated world (the
assignment proceeded) or a fatal debug assertion. -/
inductive ArrivalOutcome where
  | ok (w : World7)
  | assertFail (msg : String)
  deriving Repr, DecidableEq

/-- Translation of the arrival section of the `Entity.position` setter
(lines 807-826), entered with the new coordinate `pos` not `None`.
Control flow, in source order: if the tile's occupant is this entity's
own claim, the claim is redeemed and the tile treated as free; a free
tile records this entity as occupant; an `is_platform` occupant is
stepped onto after the active `assert new_occupant.occupant in (None,
self, self.claim)` (line 820), modelled as `.assertFail`; any other
occupant reaches the final `else`, which only logs ("I don't understand
how, it's occupied by ... and we can't step on it") — the `assert
False` beneath it is commented out (line 826) — and proceeds leaving
the occupancy table unchanged.  (The claim token's own `_position`
bookkeeping on redemption, line 815, is not tracked here; entity ids
not present in the table, impossible in the source's object graph, are
mapped to `.assertFail`.) -/
def positionArrival (w : World7) (self : Nat) (pos : Int × Int) :
    ArrivalOutcome :=
  match w.ents.get? self with
  | none => .assertFail "unknown entity"
  | some se =>
    let newOcc := occLookup w.occ pos
    let redeemed : Bool := match newOcc, se.claim with
      | some o, some c => o == c
      | _, _ => false
    let newOcc2 := if redeemed then none else newOcc
    match newOcc2 with
    | none => .ok { w with occ := occSet w.occ pos self }
    | some o =>
      match w.ents.get? o with
      | none => .assertFail "unknown occupant"
      | some oe =>
        if oe.is_platform then
          if oe.occupant = none ∨ oe.occupant = some self ∨ oe.occupant = se.claim then
            let ents1 := entsModify w.ents self (fun e => { e with standing_on := some o })
            let ents2 := entsModify ents1 o (fun e => { e with occupant := some self })
            .ok { w with ents := ents2 }
          else .assertFail "cannot step on occupied platform"
        else .ok w

/-! ## Animator (game.py `class Animator`, lines 558-656)

Interpolated values are screen positions: pairs of rationals with
componentwise add/sub and scalar multiplication (`dynamite/vec2d.py` is
not in the sources; modelled from the spec: Vec2 "supports
add/subtract/scalar-multiply", componentwise). -/

/-- The underlying `Timer` data the Animator reads `ratio` from. -/
structure AnimTimer where
  interval : ℚ
  elapsed : ℚ
  deriving Repr, DecidableEq

/-- The Animator fields used by `position` and `reroute`.  `endVal`
stands for the source's `self.end` (a Lean keyword). -/
structure AnimatorSt where
  timer : AnimTimer
  start : Option (ℚ × ℚ)
  endVal : Option (ℚ × ℚ)
  ratioOffset : ℚ
  deriving Repr, DecidableEq

/-- Translation of `Timer.ratio` (lines 343-345), as read through
`Animator.ratio` (lines 626-630) while a timer is present. -/
def animRatio (st : AnimatorSt) : ℚ :=
  st.timer.elapsed / st.timer.interval

/-- Translation of the `Animator.position` property (lines 646-656) as
a function of the raw timer ratio `r`: with both endpoints present, the
ratio is renormalised past a nonzero `ratio_offset`
(`if self.ratio_offset:` is Python truthiness), then interpolates
`start + (end - start) * ratio`. -/
def animatorPositionR (start endVal : Option (ℚ × ℚ)) (ratioOffset r : ℚ) :
    Option (ℚ × ℚ) :=
  match endVal with
  | none => start
  | some e =>
    match start with
    | none => some e
    | some s =>
      let r' := if ratioOffset ≠ 0 then (r - ratioOffset) / (1 - ratioOffset) else r
      some (s + r' • (e - s))

/-- The `Animator.position` property at the animator's current ratio. -/
def animatorPosition (st : AnimatorSt) : Option (ℚ × ℚ) :=
  animatorPositionR st.start st.endVal st.ratioOffset (animRatio st)

/-- Translation of `Animator.reroute(destination)` (lines 600-614):
capture the current interpolated position and the current ratio, then
set `start` to that position, `end` to the new destination and
`ratio_offset` to that ratio.  The underlying timer is not touched. -/
def animReroute (st : AnimatorSt) (dest : ℚ × ℚ) : AnimatorSt :=
  { st with
    start := animatorPosition st
    endVal := some dest
    ratioOffset := animRatio st }

/-! ## Fling candidate walk (game.py `walk_vec2d_back_to_zero` lines
658-667, `Entity.fling` lines 844-910, `Fling.__init__` lines 677-682)

Grid vectors are pairs of integers.  `dynamite/vec2d.py` is not among
the sources; modelled from the spec: Vec2 is an "immutable pair (x, y),
both integers", with componentwise add/subtract (the `Prod` instances),
and Python truthiness of a vector is "nonzero". -/

/-- One iteration of the loop body of `walk_vec2d_back_to_zero`:
`if abs(v.y) > abs(v.x): v += delta_y else: v += delta_x`, where
`delta_x = (sx, 0)` and `delta_y = (0, sy)` were fixed up front from
the original vector's component signs. -/
def walkStep (sx sy : Int) (v : Int × Int) : Int × Int :=
  if v.2.natAbs > v.1.natAbs then (v.1, v.2 + sy) else (v.1 + sx, v.2)

/-- The `while v:` loop of `walk_vec2d_back_to_zero`, yielding each
stepped vector, run for at most `fuel` iterations.  The generator's
loop ends exactly when the vector reaches zero; the fuel
`|x| + |y|` used below always suffices because every step moves one
component one unit toward zero (`walkAux_spec`). -/
def walkAux (sx sy : Int) : Nat → (Int × Int) → List (Int × Int)
  | 0, _ => []
  | fuel + 1, v =>
    if v = (0, 0) then []
    else
      let v' := walkStep sx sy v
      v' :: walkAux sx sy fuel v'

/-- Translation of `walk_vec2d_back_to_zero(v)` (lines 658-667): yield
`v` itself, fix `delta_x = (-1 if v.x > 0 else 1, 0)` and
`delta_y = (0, -1 if v.y > 0 else 1)`, then walk `v` to zero yielding
every intermediate vector. -/
def walk_vec2d_back_to_zero (v : Int × Int) : List (Int × Int) :=
  v :: walkAux (if v.1 > 0 then -1 else 1) (if v.2 > 0 then -1 else 1)
    (v.1.natAbs + v.2.natAbs) v

/-- Relation between the walk's starting vector and any vector it
yields: componentwise, the magnitude never grows and the sign is
preserved (a component that starts nonnegative stays nonnegative, one
that starts nonpositive stays nonpositive). -/
def shrinksToward (v w : Int × Int) : Prop :=
  w.1.natAbs ≤ v.1.natAbs ∧ w.2.natAbs ≤ v.2.natAbs ∧
  (0 ≤ v.1 → 0 ≤ w.1) ∧ (v.1 ≤ 0 → w.1 ≤ 0) ∧
  (0 ≤ v.2 → 0 ≤ w.2) ∧ (v.2 ≤ 0 → w.2 ≤ 0)

/-- Translation of the candidate-selection loop of `Entity.fling`
(lines 874-887): scan the walk; on reaching the zero vector the fling
fails (`return self.on_fling_failed(...)`); otherwise the first
candidate accepted by the occupancy test — `(not occupant) or
occupant_is_a_claim or self.fling_destination_is_okay(fling, occupant)`,
abstracted here as the predicate `ok` — is selected. -/
def flingSearch (ok : (Int × Int) → Bool) : List (Int × Int) → Option (Int × Int)
  | [] => none
  | v :: rest =>
    if v = (0, 0) then none
    else if ok v then some v else flingSearch ok rest

/-- Outcome of a fling: the destination tile of the successful
candidate (`Fling.destination = self.entity.position + delta`, line
682), or failure (`on_fling_failed`). -/
inductive FlingOutcome where
  | moved (dest : Int × Int)
  | failed
  deriving Repr, DecidableEq

/-- The fling's resolution for an entity at `pos` flung by `delta`,
with `ok` the occupancy acceptance test. -/
def flingResolve (pos delta : Int × Int) (ok : (Int × Int) → Bool) : FlingOutcome :=
  match flingSearch ok (walk_vec2d_back_to_zero delta) with
  | some v => .moved (pos + v)
  | none => .failed

/-! ## Wait-queue handoff (game.py `Entity.queue_for_tile` lines
740-745, `Entity.unqueue_for_tile` lines 747-752, tile handoff in the
`Entity.position` setter lines 828-840)

The model fixes one coordinate and tracks its `level.tile_queue` entry
(the ordered list of waiting entity ids) together with the history of
handoff offers: each time an entity departs the tile while the queue is
non-empty, the setter reads `e = tq[0]` and calls
`e.on_tile_available(...)` without popping (the waiting entity removes
itself); the offered id is appended to `offers`. -/

/-- The operations that touch a tile's wait queue. -/
inductive QEvent where
  | enqueue (e : Nat)
  | unqueue (e : Nat)
  | depart
  deriving Repr, DecidableEq

/-- Queue state for one coordinate, with the offer history. -/
structure QState where
  queue : List Nat
  offers : List Nat
  deriving Repr, DecidableEq

/-- One step: `queue_for_tile` appends (`level.tile_queue[coord]
.append(self)`, line 744); `unqueue_for_tile` removes
(`level.tile_queue[...].remove(self)`, line 751); a departure with a
non-empty queue offers the tile to `tq[0]` (lines 831-838). -/
def stepQ (s : QState) : QEvent → QState
  | .enqueue e => { s with queue := s.queue ++ [e] }
  | .unqueue e => { s with queue := s.queue.erase e }
  | .depart =>
    match s.queue with
    | [] => s
    | e :: _ => { s with offers := s.offers ++ [e] }

/-- Run a sequence of queue events. -/
def runQ (s : QState) (evs : List QEvent) : QState :=
  evs.foldl stepQ s

/-- Side conditions the source imposes on an event, relative to the two
entities Q1 and Q2 under scrutiny: an enqueued entity is not already
queued (the assert in `queue_for_tile`, line 741, via `queued_tile ==
None`) and is a third party; Q1 is only ever unqueued after having been
offered the tile (the FIFO scenario: Q1 does not cancel). -/
def OkEvent (q1 q2 : Nat) (s : QState) : QEvent → Prop
  | .enqueue e => e ∉ s.queue ∧ e ≠ q1 ∧ e ≠ q2
  | .unqueue e => e ≠ q1 ∨ q1 ∈ s.offers
  | .depart => True

/-- An event trace each of whose events satisfies its side condition in
the state it runs in. -/
def AllowedFrom (q1 q2 : Nat) : QState → List QEvent → Prop
  | _, [] => True
  | s, ev :: evs => OkEvent q1 q2 s ev ∧ AllowedFrom q1 q2 (stepQ s ev) evs

/-- The induction invariant for handoff FIFO: the queue holds no
duplicates, and either Q1 has been offered the tile (and any offer to
Q2 came later), or Q2 has not been offered and sits behind Q1 in the
queue. -/
def QInv (q1 q2 : Nat) (s : QState) : Prop :=
  s.queue.Nodup ∧
  ((q1 ∈ s.offers ∧ (q2 ∈ s.offers → [q1, q2].Sublist s.offers)) ∨
   (q2 ∉ s.offers ∧ (q2 ∈ s.queue → [q1, q2].Sublist s.queue)))

/-! ## Blast pattern (game.py `enumerate_outside_in` lines 1488-1498,
`BlastPattern.__init__` lines 1501-1539, patterns lines 1544-1558, and
the blast loop of `Bomb.detonate` lines 1869-1873) -/

/-- Translation of `enumerate_outside_in(iterable)` (lines 1488-1498):
pop the front (yielding it with index `offset`), then the back
(yielding it with index `offset + len(l) + 1`, `l` already shortened by
both pops), and repeat on the middle with `offset + 1`.  The list
shrinks by two per iteration while the fuel drops by one, so fuel
`l.length` (used by `enumerate_outside_in` below) always suffices. -/
def enumOutsideInAux {α : Type} : Nat → List α → Nat → List (Nat × α)
  | 0, _, _ => []
  | _ + 1, [], _ => []
  | fuel + 1, a :: rest, offset =>
    match rest.getLast? with
    | none => [(offset, a)]
    | some b =>
      (offset, a) :: (offset + rest.dropLast.length + 1, b)
        :: enumOutsideInAux fuel rest.dropLast (offset + 1)

/-- The generator, started with `offset = 0` as in the source. -/
def enumerate_outside_in {α : Type} (l : List α) : List (Nat × α) :=
  enumOutsideInAux l.length l 0

/-- Translation of `pattern.split("\n")` on the character list of the
pattern string. -/
def splitOnChar (c : Char) (l : List Char) : List (List Char) :=
  l.foldr (fun ch acc => match acc with
    | [] => [[ch]]
    | cur :: rest => if ch = c then [] :: (cur :: rest) else (ch :: cur) :: rest) [[]]

/-- Translation of `str.rstrip()` (trailing whitespace removed). -/
def rstrip (l : List Char) : List Char :=
  (l.reverse.dropWhile Char.isWhitespace).reverse

/-- Translation of the line preparation of `BlastPattern.__init__`
(lines 1514-1518): split on newlines, right-strip each line, then pop
empty lines from the front and the back. -/
def patternRows (pattern : String) : List (List Char) :=
  let lines := (splitOnChar '\n' pattern.toList).map rstrip
  ((lines.dropWhile List.isEmpty).reverse.dropWhile List.isEmpty).reverse

/-- Translation of the cell traversal of `BlastPattern.__init__` (lines
1520-1535): enumerate rows outside-in; per row, left-strip to find
`x_offset`, enumerate the stripped characters outside-in, and record an
absolute coordinate for every non-space character (the center `O`
falls through and is recorded too). -/
def blastCells (pattern : String) : List ((Int × Int) × Char) :=
  (enumerate_outside_in (patternRows pattern)).flatMap fun yl =>
    let stripped := yl.2.dropWhile Char.isWhitespace
    let xoff := yl.2.length - stripped.length
    (enumerate_outside_in stripped).filterMap fun xc =>
      if xc.2.isWhitespace then none
      else some ((Int.ofNat (xc.1 + xoff), Int.ofNat yl.1), xc.2)

/-- The center: the coordinate of the (last traversed) `O` cell, as the
source's repeated `center = coordinate` assignment leaves it.  (The
source asserts a center exists; both patterns have exactly one `O`.) -/
def blastCenter (pattern : String) : Int × Int :=
  ((((blastCells pattern).filter fun z => z.2 = 'O').getLast?).map Prod.fst).getD (0, 0)

/-- Translation of the final relative-coordinate list
(`self.coordinates`, lines 1537-1539): every recorded absolute
coordinate minus the center, in traversal order. -/
def blastCoordinates (pattern : String) : List (Int × Int) :=
  let c := blastCenter pattern
  (blastCells pattern).map fun z => (z.1.1 - c.1, z.1.2 - c.2)

/-- The ASCII diagram of `blast_pattern_1` (lines 1544-1549). -/
def blast_pattern_1 : String := "\n X\nXOX\n X\n"

/-- The ASCII diagram of `blast_pattern_2` (lines 1551-1558). -/
def blast_pattern_2 : String := "\n  X\n XXX\nXXOXX\n XXX\n  X\n"

/-- Two offsets lie in the same row or column on the same side of the
center, with the first strictly farther from it. -/
abbrev fartherEarlierPair (d1 d2 : Int × Int) : Prop :=
  (d1.2 = d2.2 ∧ 0 ≤ d1.1 * d2.1 ∧ d2.1.natAbs < d1.1.natAbs) ∨
  (d1.1 = d2.1 ∧ 0 ≤ d1.2 * d2.2 ∧ d2.2.natAbs < d1.2.natAbs)

/-- Translation of the blast loop of `Bomb.detonate` (lines 1869-1873):
for every offset of the pattern, in list order, look up the occupant of
`position + delta` and invoke its `on_blasted`; the returned list is
the sequence of entities whose `on_blasted` runs, in invocation
order. -/
def blastVictims (occ : List ((Int × Int) × Nat)) (center : Int × Int)
    (coords : List (Int × Int)) : List Nat :=
  coords.filterMap fun delta => occLookup occ (center.1 + delta.1, center.2 + delta.2)

/-! # Theorems -/

/-- Helper: clearing every occupancy entry at `pos` makes lookup at
`pos` come back empty. -/
theorem occLookup_filter_ne (occ : List ((Int × Int) × Nat)) (pos : Int × Int) :
    occLookup (occ.filter fun e => e.1 ≠ pos) pos = none := by
  induction occ with
  | nil => rfl
  | cons e rest ih =>
    by_cases h : e.1 = pos
    · simp [occLookup, List.filter_cons, h, ih]
    · simp [occLookup, List.filter_cons, List.find?_cons, h, ih]

/-- Helper: `n` spawns add `n` to the live-dam counter and invoke
nothing. -/
theorem spawnDams_eq (m : Nat) (st : DamLevelSt) :
    spawnDams m st = { st with dams_remaining := st.dams_remaining + m } := by
  induction m generalizing st with
  | zero => simp [spawnDams]
  | succ m ih =>
    rw [spawnDams, ih, on_dam_spawned]
    congr 1
    push_cast
    ring

/-! ### C1: Timer completion-callback multiplicity -/

/-- Claim C1: "when advancing first makes its elapsed ticks reach its
interval, the completion callback is invoked exactly once and the timer
is deregistered".  The code disagrees: `Timer.advance` runs
`if self.callback(): self.callback()` (game.py lines 332-333), invoking
the callback once and then again when its result is truthy.  At the
failing input — an unpaused timer with interval 1, elapsed 0, whose
completion callback returns a truthy value — one `advance(1)` invokes
the callback twice (while deregistering as claimed; and a further
advance would invoke nothing, per the second conjunct). -/
theorem timer_callback_invoked_twice_on_truthy_callback :
    (timerAdvance1 ⟨0, 1, 0, false, true⟩ = (⟨0, 1, 1, false, true⟩, true, 2)) ∧
    (timerAdvance1 ⟨0, 1, 1, false, true⟩ = (⟨0, 1, 1, false, true⟩, false, 0)) := by
  norm_num [timerAdvance1]

/-! ### C2: Clock.advance skips a timer when its predecessor completes -/

/-- Claim C2: "Clock.advance(dt) ... after each firing advances every
Timer currently registered on that clock by exactly one logical tick, in
registration order — including in the case where a timer completes (and
so deregisters itself) during that same iteration."  The code disagrees:
at the failing input — an unpaused clock (interval 1, accumulator 0,
`next` 1) holding timers A (id 10, interval 1, elapsed 0) and B (id 11,
interval 2, elapsed 0), advanced by dt = 1 — exactly one tick fires and
timer A completes and removes itself from `clock.timers` mid-iteration
(`for t in self.timers`, game.py lines 285-286), so the bare-index list
iterator skips timer B entirely: B's elapsed count is still 0 after the
advance, though the claim requires it to have advanced by one tick. -/
theorem clock_advance_skips_timer_after_completion :
    clockAdvance
      { accumulator := 0, elapsedC := 0, counter := 0, next := 1, interval := 1,
        paused := false,
        timers := [⟨10, 1, 0, false, false⟩, ⟨11, 2, 0, false, false⟩],
        periodicCalls := 0, fired := [] } 1 =
      { accumulator := 0, elapsedC := 1, counter := 1, next := 1, interval := 1,
        paused := false,
        timers := [⟨11, 2, 0, false, false⟩],
        periodicCalls := 1, fired := [10] } := by
  norm_num [clockAdvance, clockFuel, clockLoop, clockTickOnce, advanceTimers,
    advanceTimersAux, timerAdvance1]

/-! ### C9: live-dam counter and level completion -/

/-- Claim C9: each `Dam.on_blasted` clears the dam's grid entry and
decrements the live-dam counter by exactly 1, and `Level.complete` runs
exactly once, at the destruction that brings the counter to zero, and
never while the counter is positive.  Conjunct 1 settles one blast on a
dam standing at `pos`; conjunct 2 settles a whole level run: after `n`
dams spawn at load and `k` of them are destroyed during play,
`dams_remaining = n - k` and `complete` has run exactly once if the
counter has reached zero (`1 ≤ n ∧ n ≤ k`) and never otherwise. -/
theorem dam_counter_completion (w : DamWorld) (pos : Int × Int) (n k : Nat)
    (hk : k ≤ n) :
    (occLookup (damOnBlasted w pos).occ pos = none ∧
      (damOnBlasted w pos).levelSt.dams_remaining = w.levelSt.dams_remaining - 1 ∧
      (damOnBlasted w pos).levelSt.completions =
        w.levelSt.completions + (if w.levelSt.dams_remaining = 1 then 1 else 0)) ∧
    (destroyDams k (spawnDams n damLevelInit) =
      { dams_remaining := (n : Int) - k,
        completions := if 1 ≤ n ∧ n ≤ k then 1 else 0 }) := by
  constructor
  · refine ⟨occLookup_filter_ne w.occ pos, ?_, ?_⟩
    · show (on_dam_destroyed w.levelSt).dams_remaining = _
      rw [on_dam_destroyed]
      split <;> rfl
    · show (on_dam_destroyed w.levelSt).completions = _
      rw [on_dam_destroyed]
      split <;> rename_i hd
      · show w.levelSt.completions + 1 = _
        rw [if_pos (by omega)]
      · show w.levelSt.completions = _
        rw [if_neg (by omega)]
        omega
  · rw [spawnDams_eq]
    induction k with
    | zero =>
      rw [destroyDams]
      simp only [damLevelInit, DamLevelSt.mk.injEq, and_true, true_and]
      split_ifs <;> omega
    | succ k ih =>
      have hk' : k ≤ n := Nat.le_of_succ_le hk
      rw [destroyDams, ih hk']
      simp only [on_dam_destroyed]
      split_ifs <;> simp only [DamLevelSt.mk.injEq, and_true, true_and] <;> omega

/-- Witness for C9: two dams spawn, two are destroyed; the counter hits
zero exactly at the second destruction and `complete` runs once; and a
single blast on a dam at (3, 4) with the counter at 2 clears its tile,
leaves the counter at 1 and does not run `complete`. -/
theorem dam_counter_completion_witness :
    (occLookup (damOnBlasted ⟨[((3, 4), 7)], ⟨2, 0⟩⟩ (3, 4)).occ (3, 4) = none ∧
      (damOnBlasted ⟨[((3, 4), 7)], ⟨2, 0⟩⟩ (3, 4)).levelSt.dams_remaining = 2 - 1 ∧
      (damOnBlasted ⟨[((3, 4), 7)], ⟨2, 0⟩⟩ (3, 4)).levelSt.completions =
        0 + (if (2 : Int) = 1 then 1 else 0)) ∧
    (destroyDams 2 (spawnDams 2 damLevelInit) =
      { dams_remaining := (2 : Int) - 2, completions := if 1 ≤ 2 ∧ 2 ≤ 2 then 1 else 0 }) :=
  dam_counter_completion ⟨[((3, 4), 7)], ⟨2, 0⟩⟩ (3, 4) 2 2 (by decide)

/-! ### C10: bomb inventory cap -/

/-- Claim C10: `Player.push_bomb` returns `False` and leaves the bomb
list unchanged whenever the player already holds `MAX_BOMBS` (2) bombs,
otherwise appends the bomb and returns `True`; consequently, over any
sequence of pushes and pops starting from the empty inventory, the
player never carries more than 2 bombs. -/
theorem push_bomb_cap (bs : List Nat) (b : Nat) :
    (bs.length = MAX_BOMBS → push_bomb bs b = (bs, false)) ∧
    (bs.length ≠ MAX_BOMBS → push_bomb bs b = (bs ++ [b], true)) ∧
    (∀ ops : List BombOp, (runBombs ops).length ≤ MAX_BOMBS) := by
  refine ⟨?_, ?_, ?_⟩
  · intro h; simp [push_bomb, h]
  · intro h; simp [push_bomb, h]
  · intro ops
    have key : ∀ (l : List BombOp) (bs' : List Nat), bs'.length ≤ MAX_BOMBS →
        (l.foldl (fun bs op => match op with
          | .push b => (push_bomb bs b).1
          | .pop => (pop_bomb bs).1) bs').length ≤ MAX_BOMBS := by
      intro l
      induction l with
      | nil => intro bs' h; simpa using h
      | cons op rest ih =>
        intro bs' h
        simp only [List.foldl_cons]
        apply ih
        match op with
        | .push b =>
          simp only [push_bomb]
          split
          · exact h
          · rename_i hne
            simp only [List.length_append, List.length_singleton]
            have : bs'.length < MAX_BOMBS := Nat.lt_of_le_of_ne h hne
            omega
        | .pop =>
          simp only [pop_bomb]
          match hl : bs'.getLast? with
          | none => simpa using h
          | some x =>
            simp only [List.length_dropLast]
            omega
    exact key ops [] (by simp [MAX_BOMBS])

/-- Witness for C10: a full inventory rejects a third bomb, a singleton
inventory accepts a second, and a concrete push/push/push/pop trace
never exceeds the cap. -/
theorem push_bomb_cap_witness :
    push_bomb [1, 2] 3 = ([1, 2], false) ∧
    push_bomb [1] 3 = ([1, 3], true) ∧
    (runBombs [.push 1, .push 2, .push 3, .pop]).length ≤ MAX_BOMBS :=
  ⟨(push_bomb_cap [1, 2] 3).1 (by decide),
   (push_bomb_cap [1] 3).2.1 (by decide),
   (push_bomb_cap [1] 3).2.2 [.push 1, .push 2, .push 3, .pop]⟩

/-! ### C3: standing/occupant symmetry is broken by fling-failure cleanup -/

/-- Claim C3 asserts the symmetry invariant (`A.standing_on == B` iff
`B.occupant == A`) is preserved by every listed operation, including
fling failure cleanup.  The code disagrees: at the failing input — a
two-entity world where bomb 0 stands on platform 1 (symmetric:
`0.standing_on = 1`, `1.occupant = 0`) — running `Bomb.on_fling_failed`
clears the platform's `occupant` but leaves the bomb's `standing_on`
set, because the source's final statement `standing_on = None` (game.py
line 1909) rebinds the local variable instead of `self.standing_on`
(contradicting its own comment "all this does is unset on_standing_on"),
so the resulting world violates the invariant. -/
theorem fling_failed_breaks_symmetry :
    symmetricWorld [⟨some 1, none⟩, ⟨none, some 0⟩] ∧
    bombOnFlingFailed [⟨some 1, none⟩, ⟨none, some 0⟩] 0 =
      [⟨some 1, none⟩, ⟨none, none⟩] ∧
    ¬ symmetricWorld (bombOnFlingFailed [⟨some 1, none⟩, ⟨none, some 0⟩] 0) := by
  unfold symmetricWorld symPair
  exact ⟨by decide, by decide, by decide⟩

/-! ### C7: arrival on an occupied non-platform tile -/

/-- Counterexample to claim C7: the claim says assigning a position
onto an occupied non-platform tile "fails a fatal assertion rather than
proceeding".  At this concrete input — entity 0 (whose claim token is
entity 1) arrives at (0, 0), which is occupied by entity 2, a
non-platform — the arrival code proceeds and returns the world
unchanged: the `assert False` in that branch is commented out (game.py
line 826) and only a log line runs. -/
theorem arrival_occupied_nonplatform_proceeds :
    positionArrival
      ⟨[⟨false, none, some 1, none⟩, ⟨false, none, none, none⟩,
        ⟨false, none, none, none⟩], [((0, 0), 2)]⟩ 0 (0, 0) =
    ArrivalOutcome.ok
      ⟨[⟨false, none, some 1, none⟩, ⟨false, none, none, none⟩,
        ⟨false, none, none, none⟩], [((0, 0), 2)]⟩ := by
  decide

/-- Amended claim C7: when the arrival tile's occupant is neither empty
nor the arriving entity's own claim, the debug assertion fires only in
the platform case — stepping onto a platform whose `occupant` slot is
a third party fails `assert new_occupant.occupant in (None, self,
self.claim)` (game.py line 820) — while an occupied *non-platform*
destination is logged and the assignment proceeds, leaving the
occupancy table unchanged (the `assert False` is commented out, line
826). -/
theorem arrival_assert_amended (w : World7) (self : Nat) (pos : Int × Int)
    (se oe : Ent7) (o : Nat)
    (hse : w.ents.get? self = some se)
    (ho : occLookup w.occ pos = some o)
    (hnc : se.claim ≠ some o)
    (hoe : w.ents.get? o = some oe) :
    (oe.is_platform = false → positionArrival w self pos = ArrivalOutcome.ok w) ∧
    (oe.is_platform = true →
      ¬ (oe.occupant = none ∨ oe.occupant = some self ∨ oe.occupant = se.claim) →
      positionArrival w self pos =
        ArrivalOutcome.assertFail "cannot step on occupied platform") := by
  have hred : (match (some o : Option Nat), se.claim with
      | some o', some c => o' == c
      | _, _ => false) = false := by
    cases hc : se.claim with
    | none => rfl
    | some c =>
      have hne : o ≠ c := fun h => hnc (by rw [hc, h])
      simp [hne]
  constructor
  · intro hp
    unfold positionArrival
    rw [hse, ho]
    simp only [hred, Bool.false_eq_true, if_false, hoe, hp]
  · intro hp hocc
    unfold positionArrival
    rw [hse, ho]
    simp only [hred, Bool.false_eq_true, if_false, hoe, hp, eq_self_iff_true, if_true]
    rw [if_neg hocc]

/-- Witness for the amended C7 theorem: in a three-entity world, the
mover (0, claim 1) arriving on non-platform 2 proceeds, and in a second
world, arriving on platform 2 already ridden by entity 3 hits the
assertion. -/
theorem arrival_assert_amended_witness :
    (positionArrival
      ⟨[⟨false, none, some 1, none⟩, ⟨false, none, none, none⟩,
        ⟨false, none, none, none⟩], [((0, 0), 2)]⟩ 0 (0, 0) =
      ArrivalOutcome.ok
        ⟨[⟨false, none, some 1, none⟩, ⟨false, none, none, none⟩,
          ⟨false, none, none, none⟩], [((0, 0), 2)]⟩) ∧
    (positionArrival
      ⟨[⟨false, none, some 1, none⟩, ⟨false, none, none, none⟩,
        ⟨true, some 3, none, none⟩, ⟨false, none, none, none⟩],
       [((0, 0), 2)]⟩ 0 (0, 0) =
      ArrivalOutcome.assertFail "cannot step on occupied platform") :=
  ⟨(arrival_assert_amended
      ⟨[⟨false, none, some 1, none⟩, ⟨false, none, none, none⟩,
        ⟨false, none, none, none⟩], [((0, 0), 2)]⟩ 0 (0, 0)
      ⟨false, none, some 1, none⟩ ⟨false, none, none, none⟩ 2
      rfl rfl (by decide) rfl).1 rfl,
   (arrival_assert_amended
      ⟨[⟨false, none, some 1, none⟩, ⟨false, none, none, none⟩,
        ⟨true, some 3, none, none⟩, ⟨false, none, none, none⟩],
       [((0, 0), 2)]⟩ 0 (0, 0)
      ⟨false, none, some 1, none⟩ ⟨true, some 3, none, none⟩ 2
      rfl rfl (by decide) rfl).2 rfl (by decide)⟩

/-! ### C8: Animator.reroute continuity -/

/-- Claim C8: rerouting an in-flight animation (both endpoints present,
current raw ratio `0 ≤ r < 1`) leaves the interpolated position
unchanged at the moment of the reroute, does not touch the underlying
timer (so completion stays at the originally scheduled tick), and makes
the interpolation reach the new destination exactly at ratio 1. -/
theorem animator_reroute_continuous (st : AnimatorSt) (dest s e : ℚ × ℚ)
    (hs : st.start = some s) (he : st.endVal = some e)
    (_hr0 : 0 ≤ animRatio st) (hr1 : animRatio st < 1) :
    animatorPosition (animReroute st dest) = animatorPosition st ∧
    (animReroute st dest).timer = st.timer ∧
    animatorPositionR (animReroute st dest).start (animReroute st dest).endVal
      (animReroute st dest).ratioOffset 1 = some dest := by
  have hcur : ∃ cur, animatorPosition st = some cur := by
    unfold animatorPosition animatorPositionR
    rw [he, hs]
    exact ⟨_, rfl⟩
  obtain ⟨cur, hc⟩ := hcur
  have htimer : (animReroute st dest).timer = st.timer := rfl
  have hratio : animRatio (animReroute st dest) = animRatio st := rfl
  refine ⟨?_, htimer, ?_⟩
  · show animatorPositionR (animatorPosition st) (some dest) (animRatio st)
        (animRatio (animReroute st dest)) = animatorPosition st
    rw [hratio, hc]
    unfold animatorPositionR
    by_cases h0 : animRatio st = 0
    · simp [h0]
    · simp only [if_pos h0, sub_self, zero_div, zero_smul, add_zero]
  · show animatorPositionR (animatorPosition st) (some dest) (animRatio st) 1 = some dest
    rw [hc]
    unfold animatorPositionR
    by_cases h0 : animRatio st = 0
    · simp only [if_neg (not_not_intro h0), one_smul]
      congr 1
      abel
    · have hne : (1 : ℚ) - animRatio st ≠ 0 := by
        intro h
        have h1 : animRatio st = 1 := by linarith
        exact absurd h1 (ne_of_lt hr1)
      simp only [if_pos h0, div_self hne, one_smul]
      congr 1
      abel

/-- Witness for C8: a half-way animation from (0, 0) to (2, 2)
rerouted to (5, 3). -/
theorem animator_reroute_continuous_witness :
    animatorPosition (animReroute ⟨⟨2, 1⟩, some (0, 0), some (2, 2), 0⟩ (5, 3)) =
      animatorPosition ⟨⟨2, 1⟩, some (0, 0), some (2, 2), 0⟩ ∧
    (animReroute ⟨⟨2, 1⟩, some (0, 0), some (2, 2), 0⟩ (5, 3)).timer =
      (⟨⟨2, 1⟩, some (0, 0), some (2, 2), 0⟩ : AnimatorSt).timer ∧
    animatorPositionR
      (animReroute ⟨⟨2, 1⟩, some (0, 0), some (2, 2), 0⟩ (5, 3)).start
      (animReroute ⟨⟨2, 1⟩, some (0, 0), some (2, 2), 0⟩ (5, 3)).endVal
      (animReroute ⟨⟨2, 1⟩, some (0, 0), some (2, 2), 0⟩ (5, 3)).ratioOffset 1 =
      some (5, 3) :=
  animator_reroute_continuous ⟨⟨2, 1⟩, some (0, 0), some (2, 2), 0⟩ (5, 3) (0, 0) (2, 2)
    rfl rfl (by norm_num [animRatio]) (by norm_num [animRatio])

/-! ### C6: fling monotonic shrink -/

/-- Helper: the last element of a cons is the last element of a
non-empty tail. -/
theorem getLast?_cons_of_ne_nil {α : Type} (a : α) {l : List α} (h : l ≠ []) :
    (a :: l).getLast? = l.getLast? := by
  cases l with
  | nil => exact absurd rfl h
  | cons b t => rfl

/-- Helper: dropping the last element of a cons with non-empty tail
keeps the head. -/
theorem dropLast_cons_of_ne_nil {α : Type} (a : α) {l : List α} (h : l ≠ []) :
    (a :: l).dropLast = a :: l.dropLast := by
  cases l with
  | nil => exact absurd rfl h
  | cons b t => rfl

/-- Helper: `shrinksToward` is transitive. -/
theorem shrinksToward_trans {u v w : Int × Int}
    (h1 : shrinksToward u v) (h2 : shrinksToward v w) : shrinksToward u w := by
  unfold shrinksToward at h1 h2 ⊢
  omega

/-- Helper: one walk step moves the magnitude sum down by exactly one,
shrinks toward the pre-step vector, and keeps the sign coherence of the
fixed step deltas. -/
theorem walkStep_spec (sx sy : Int) (v : Int × Int)
    (hx : (sx = -1 ∧ 0 ≤ v.1) ∨ (sx = 1 ∧ v.1 ≤ 0))
    (hy : (sy = -1 ∧ 0 ≤ v.2) ∨ (sy = 1 ∧ v.2 ≤ 0))
    (hv : v ≠ (0, 0)) :
    (walkStep sx sy v).1.natAbs + (walkStep sx sy v).2.natAbs + 1
        = v.1.natAbs + v.2.natAbs ∧
    shrinksToward v (walkStep sx sy v) ∧
    ((sx = -1 ∧ 0 ≤ (walkStep sx sy v).1) ∨ (sx = 1 ∧ (walkStep sx sy v).1 ≤ 0)) ∧
    ((sy = -1 ∧ 0 ≤ (walkStep sx sy v).2) ∨ (sy = 1 ∧ (walkStep sx sy v).2 ≤ 0)) := by
  have hv' : ¬ (v.1 = 0 ∧ v.2 = 0) := by
    intro h
    exact hv (by rw [Prod.ext_iff]; exact ⟨h.1, h.2⟩)
  obtain ⟨a, b⟩ := v
  dsimp only at hv' hx hy
  unfold walkStep shrinksToward
  by_cases hcase : b.natAbs > a.natAbs
  · rw [if_pos hcase]
    dsimp only
    omega
  · rw [if_neg hcase]
    dsimp only
    omega

/-- Helper: full specification of the walk loop run with the correct
fuel: it yields exactly `|x| + |y|` vectors, the last of which is zero,
every yielded vector shrinks toward the starting one, and zero occurs
only in last position. -/
theorem walkAux_spec (sx sy : Int) (fuel : Nat) :
    ∀ (v : Int × Int),
    fuel = v.1.natAbs + v.2.natAbs →
    ((sx = -1 ∧ 0 ≤ v.1) ∨ (sx = 1 ∧ v.1 ≤ 0)) →
    ((sy = -1 ∧ 0 ≤ v.2) ∨ (sy = 1 ∧ v.2 ≤ 0)) →
    (walkAux sx sy fuel v).length = fuel ∧
    (fuel ≠ 0 → (walkAux sx sy fuel v).getLast? = some (0, 0)) ∧
    (∀ w ∈ walkAux sx sy fuel v, shrinksToward v w) ∧
    (∀ w ∈ (walkAux sx sy fuel v).dropLast, w ≠ (0, 0)) := by
  induction fuel with
  | zero =>
    intro v _ _ _
    refine ⟨rfl, fun h => absurd rfl h, ?_, ?_⟩ <;> intro w hw <;> simp [walkAux] at hw
  | succ fuel ih =>
    intro v hfuel hx hy
    have hv : v ≠ (0, 0) := by
      intro h
      rw [h] at hfuel
      simp at hfuel
    obtain ⟨hstep, hshrink, hx', hy'⟩ := walkStep_spec sx sy v hx hy hv
    have hfuel' : fuel = (walkStep sx sy v).1.natAbs + (walkStep sx sy v).2.natAbs := by
      omega
    obtain ⟨ihlen, ihlast, ihmem, ihdrop⟩ := ih (walkStep sx sy v) hfuel' hx' hy'
    rw [walkAux, if_neg hv]
    refine ⟨by simp [ihlen], ?_, ?_, ?_⟩
    · intro _
      by_cases hf : fuel = 0
      · subst hf
        have hz : walkStep sx sy v = (0, 0) := by
          have h1 : (walkStep sx sy v).1.natAbs = 0 ∧ (walkStep sx sy v).2.natAbs = 0 := by
            omega
          rw [Prod.ext_iff]
          dsimp only
          omega
        rw [hz]
        rfl
      · have hne : walkAux sx sy fuel (walkStep sx sy v) ≠ [] := by
          intro h
          rw [h] at ihlen
          exact hf ihlen.symm
        rw [getLast?_cons_of_ne_nil _ hne]
        exact ihlast hf
    · intro w hw
      rcases List.mem_cons.mp hw with h | h
      · rw [h]; exact hshrink
      · exact shrinksToward_trans hshrink (ihmem w h)
    · by_cases hf : fuel = 0
      · subst hf
        intro w hw
        simp [walkAux] at hw
      · have hne : walkAux sx sy fuel (walkStep sx sy v) ≠ [] := by
          intro h
          rw [h] at ihlen
          exact hf ihlen.symm
        rw [dropLast_cons_of_ne_nil _ hne]
        intro w hw
        rcases List.mem_cons.mp hw with h | h
        · rw [h]
          intro hz
          rw [hz] at hstep
          simp at hstep
          omega
        · exact ihdrop w h

/-- Helper: a successful candidate search returns a nonzero element of
the scanned list that the occupancy test accepted. -/
theorem flingSearch_some_spec (ok : (Int × Int) → Bool) :
    ∀ (l : List (Int × Int)) (v : Int × Int), flingSearch ok l = some v →
      v ∈ l ∧ v ≠ (0, 0) ∧ ok v = true := by
  intro l
  induction l with
  | nil => intro v hv; simp [flingSearch] at hv
  | cons a rest ih =>
    intro v hv
    rw [flingSearch] at hv
    by_cases ha : a = (0, 0)
    · rw [if_pos ha] at hv
      exact absurd hv (by simp)
    · rw [if_neg ha] at hv
      by_cases hok : ok a = true
      · rw [if_pos hok] at hv
        have hav : a = v := by injection hv
        subst hav
        exact ⟨List.mem_cons_self a rest, ha, hok⟩
      · rw [if_neg hok] at hv
        obtain ⟨h1, h2, h3⟩ := ih v hv
        exact ⟨List.mem_cons_of_mem a h1, h2, h3⟩

/-- Helper: when the search fails on a list whose zero entries occur
only in last position, the occupancy test rejected every nonzero
element. -/
theorem flingSearch_none_spec (ok : (Int × Int) → Bool) :
    ∀ (l : List (Int × Int)), (∀ w ∈ l.dropLast, w ≠ (0, 0)) →
      flingSearch ok l = none → ∀ w ∈ l, w ≠ (0, 0) → ok w = false := by
  intro l
  induction l with
  | nil => intro _ _ w hw; simp at hw
  | cons a rest ih =>
    intro hdrop hnone w hw hwz
    rw [flingSearch] at hnone
    by_cases ha : a = (0, 0)
    · rcases List.mem_cons.mp hw with h | h
      · subst h
        exact absurd ha hwz
      · exfalso
        cases rest with
        | nil => simp at h
        | cons b t =>
          have hmem : a ∈ (a :: b :: t).dropLast := by
            rw [dropLast_cons_of_ne_nil a (by simp)]
            exact List.mem_cons_self a _
          exact (hdrop a hmem) ha
    · rw [if_neg ha] at hnone
      by_cases hok : ok a = true
      · rw [if_pos hok] at hnone
        exact absurd hnone (by simp)
      · rw [if_neg hok] at hnone
        rcases List.mem_cons.mp hw with h | h
        · subst h
          exact Bool.not_eq_true _ ▸ (Bool.eq_false_iff.mpr (fun hc => hok hc))
        · refine ih ?_ hnone w h hwz
          intro u hu
          cases rest with
          | nil => simp at hu
          | cons b t =>
            apply hdrop
            rw [dropLast_cons_of_ne_nil a (by simp)]
            exact List.mem_cons_of_mem a hu

/-- Claim C6: for every nonzero delta, `walk_vec2d_back_to_zero(delta)`
yields exactly `|dx| + |dy| + 1` vectors, the last of which is zero;
`fling(delta)` either resolves to a destination `position + v` for some
nonzero walk element `v` accepted by the occupancy test — every such
`v` having components of the same sign as (product nonnegative) and
magnitude no greater than delta's, hence Chebyshev length
`max |vx| |vy|` at most delta's — or, when every nonzero candidate is
rejected, fails (invoking `on_fling_failed`). -/
theorem fling_monotonic_shrink (d : Int × Int) (hd : d ≠ (0, 0))
    (ok : (Int × Int) → Bool) (pos : Int × Int) :
    (walk_vec2d_back_to_zero d).length = d.1.natAbs + d.2.natAbs + 1 ∧
    (walk_vec2d_back_to_zero d).getLast? = some (0, 0) ∧
    (∀ dest, flingResolve pos d ok = .moved dest →
      ∃ v, v ∈ walk_vec2d_back_to_zero d ∧ v ≠ (0, 0) ∧ ok v = true ∧
        dest = pos + v ∧ 0 ≤ v.1 * d.1 ∧ 0 ≤ v.2 * d.2 ∧
        v.1.natAbs ≤ d.1.natAbs ∧ v.2.natAbs ≤ d.2.natAbs ∧
        max v.1.natAbs v.2.natAbs ≤ max d.1.natAbs d.2.natAbs) ∧
    (flingResolve pos d ok = .failed →
      ∀ w ∈ walk_vec2d_back_to_zero d, w ≠ (0, 0) → ok w = false) := by
  have hd' : ¬ (d.1 = 0 ∧ d.2 = 0) := by
    intro h
    exact hd (by rw [Prod.ext_iff]; exact ⟨h.1, h.2⟩)
  have hfz : d.1.natAbs + d.2.natAbs ≠ 0 := by omega
  have hx : ((if d.1 > 0 then (-1 : Int) else 1) = -1 ∧ 0 ≤ d.1) ∨
      ((if d.1 > 0 then (-1 : Int) else 1) = 1 ∧ d.1 ≤ 0) := by
    by_cases h : d.1 > 0
    · exact Or.inl ⟨if_pos h, le_of_lt h⟩
    · exact Or.inr ⟨if_neg h, by omega⟩
  have hy : ((if d.2 > 0 then (-1 : Int) else 1) = -1 ∧ 0 ≤ d.2) ∨
      ((if d.2 > 0 then (-1 : Int) else 1) = 1 ∧ d.2 ≤ 0) := by
    by_cases h : d.2 > 0
    · exact Or.inl ⟨if_pos h, le_of_lt h⟩
    · exact Or.inr ⟨if_neg h, by omega⟩
  obtain ⟨hlen, hlast, hmem, hdropz⟩ :=
    walkAux_spec (if d.1 > 0 then (-1 : Int) else 1) (if d.2 > 0 then (-1 : Int) else 1)
      (d.1.natAbs + d.2.natAbs) d rfl hx hy
  have hauxne : walkAux (if d.1 > 0 then (-1 : Int) else 1)
      (if d.2 > 0 then (-1 : Int) else 1) (d.1.natAbs + d.2.natAbs) d ≠ [] := by
    intro h
    rw [h] at hlen
    exact hfz hlen.symm
  have hshrink_props : ∀ v ∈ walk_vec2d_back_to_zero d,
      0 ≤ v.1 * d.1 ∧ 0 ≤ v.2 * d.2 ∧
      v.1.natAbs ≤ d.1.natAbs ∧ v.2.natAbs ≤ d.2.natAbs ∧
      max v.1.natAbs v.2.natAbs ≤ max d.1.natAbs d.2.natAbs := by
    intro v hv
    have hs : shrinksToward d v := by
      rcases List.mem_cons.mp hv with h | h
      · subst h
        unfold shrinksToward
        omega
      · exact hmem v h
    obtain ⟨hn1, hn2, hp1, hp2, hp3, hp4⟩ := hs
    have hm1 : 0 ≤ v.1 * d.1 := by
      rcases le_total 0 d.1 with h | h
      · exact mul_nonneg (hp1 h) h
      · have := mul_nonneg (neg_nonneg.mpr (hp2 h)) (neg_nonneg.mpr h)
        simpa [neg_mul_neg] using this
    have hm2 : 0 ≤ v.2 * d.2 := by
      rcases le_total 0 d.2 with h | h
      · exact mul_nonneg (hp3 h) h
      · have := mul_nonneg (neg_nonneg.mpr (hp4 h)) (neg_nonneg.mpr h)
        simpa [neg_mul_neg] using this
    exact ⟨hm1, hm2, hn1, hn2, max_le_max hn1 hn2⟩
  refine ⟨?_, ?_, ?_, ?_⟩
  · show (d :: walkAux _ _ _ d).length = _
    rw [List.length_cons, hlen]
  · show (d :: walkAux _ _ _ d).getLast? = _
    rw [getLast?_cons_of_ne_nil d hauxne]
    exact hlast hfz
  · intro dest hdest
    unfold flingResolve at hdest
    cases hsearch : flingSearch ok (walk_vec2d_back_to_zero d) with
    | none => rw [hsearch] at hdest; exact absurd hdest (by simp)
    | some v =>
      rw [hsearch] at hdest
      have hdv : dest = pos + v := by
        injection hdest with h
        exact h.symm
      obtain ⟨hv_mem, hv_ne, hv_ok⟩ := flingSearch_some_spec ok _ v hsearch
      obtain ⟨hm1, hm2, hn1, hn2, hmax⟩ := hshrink_props v hv_mem
      exact ⟨v, hv_mem, hv_ne, hv_ok, hdv, hm1, hm2, hn1, hn2, hmax⟩
  · intro hfail w hw hwz
    unfold flingResolve at hfail
    cases hsearch : flingSearch ok (walk_vec2d_back_to_zero d) with
    | some v => rw [hsearch] at hfail; exact absurd hfail (by simp)
    | none =>
      refine flingSearch_none_spec ok _ ?_ hsearch w hw hwz
      intro u hu
      rw [show walk_vec2d_back_to_zero d = d :: walkAux (if d.1 > 0 then (-1 : Int) else 1)
            (if d.2 > 0 then (-1 : Int) else 1) (d.1.natAbs + d.2.natAbs) d from rfl] at hu
      rw [dropLast_cons_of_ne_nil d hauxne] at hu
      rcases List.mem_cons.mp hu with h | h
      · subst h
        exact hd
      · exact hdropz u h

/-- Witness for C6: delta (2, -1) flung from (5, 5) with an occupancy
test accepting only (1, -1) resolves to (6, 4), one step short of the
full displacement, and the walk yields 4 vectors ending in zero. -/
theorem fling_monotonic_shrink_witness :
    (walk_vec2d_back_to_zero (2, -1)).length = 4 ∧
    (walk_vec2d_back_to_zero (2, -1)).getLast? = some (0, 0) ∧
    (∃ v, v ∈ walk_vec2d_back_to_zero (2, -1) ∧ v ≠ (0, 0) ∧
      (fun u => u == ((1 : Int), (-1 : Int))) v = true ∧
      ((6 : Int), (4 : Int)) = (5, 5) + v ∧
      0 ≤ v.1 * 2 ∧ 0 ≤ v.2 * (-1) ∧
      v.1.natAbs ≤ 2 ∧ v.2.natAbs ≤ 1 ∧
      max v.1.natAbs v.2.natAbs ≤ 2) :=
  have h := fling_monotonic_shrink (2, -1) (by decide)
    (fun u => u == ((1 : Int), (-1 : Int))) (5, 5)
  ⟨h.1, h.2.1, h.2.2.1 (6, 4) (by decide)⟩

/-! ### C4: wait-queue handoff is FIFO -/

/-- Helper: a pair sublist of a duplicate-free list never has its
second component at the head. -/
theorem pair_sublist_head_ne {q1 q2 e : Nat} {t : List Nat}
    (h : [q1, q2].Sublist (e :: t)) (hnd : (e :: t).Nodup) (hne : q1 ≠ q2) :
    e ≠ q2 := by
  intro heq
  subst heq
  cases h with
  | cons _ h' =>
    have hq2 : e ∈ t := h'.subset (by simp)
    exact (List.nodup_cons.mp hnd).1 hq2
  | cons₂ _ h' =>
    exact hne rfl

/-- Helper: one allowed queue event preserves the FIFO invariant. -/
theorem QInv_step {q1 q2 : Nat} (hne : q1 ≠ q2) {s : QState} {ev : QEvent}
    (hinv : QInv q1 q2 s) (hok : OkEvent q1 q2 s ev) :
    QInv q1 q2 (stepQ s ev) := by
  obtain ⟨hnd, hcase⟩ := hinv
  cases ev with
  | enqueue e =>
    obtain ⟨hnotmem, hne1, hne2⟩ := hok
    refine ⟨?_, ?_⟩
    · show (s.queue ++ [e]).Nodup
      refine List.Nodup.append hnd (List.nodup_singleton e) ?_
      intro a ha hb
      rw [List.mem_singleton] at hb
      subst hb
      exact hnotmem ha
    · rcases hcase with ⟨h1, h2⟩ | ⟨h1, h2⟩
      · exact Or.inl ⟨h1, h2⟩
      · refine Or.inr ⟨h1, ?_⟩
        intro hq2
        have hmem : q2 ∈ s.queue := by
          rcases List.mem_append.mp hq2 with h | h
          · exact h
          · rw [List.mem_singleton] at h
            exact absurd h.symm hne2
        exact (h2 hmem).trans (List.sublist_append_left _ _)
  | unqueue e =>
    refine ⟨hnd.erase e, ?_⟩
    by_cases hq1off : q1 ∈ s.offers
    · refine Or.inl ⟨hq1off, ?_⟩
      intro hq2off
      rcases hcase with ⟨_, h2⟩ | ⟨h1, _⟩
      · exact h2 hq2off
      · exact absurd hq2off h1
    · have he1 : e ≠ q1 := by
        rcases hok with h | h
        · exact h
        · exact absurd h hq1off
      rcases hcase with ⟨h1, _⟩ | ⟨h1, h2⟩
      · exact absurd h1 hq1off
      · refine Or.inr ⟨h1, ?_⟩
        intro hq2
        have hq2' : q2 ∈ s.queue := List.mem_of_mem_erase hq2
        by_cases heq2 : e = q2
        · subst heq2
          exact absurd hq2 (hnd.not_mem_erase)
        · have hsub := (h2 hq2').erase e
          rwa [List.erase_of_not_mem (by
            intro hmem
            rcases List.mem_cons.mp hmem with h | h
            · exact he1 h
            · rw [List.mem_singleton] at h
              exact heq2 h)] at hsub
  | depart =>
    rcases hq : s.queue with _ | ⟨e, t⟩
    · have hstep : stepQ s .depart = s := by
        unfold stepQ
        rw [hq]
      rw [hstep]
      exact ⟨hnd, hcase⟩
    · have hstep : stepQ s .depart = { s with offers := s.offers ++ [e] } := by
        unfold stepQ
        rw [hq]
      rw [hstep]
      refine ⟨hnd, ?_⟩
      rcases hcase with ⟨h1, h2⟩ | ⟨h1, h2⟩
      · refine Or.inl ⟨List.mem_append.mpr (Or.inl h1), ?_⟩
        intro hq2off
        rcases List.mem_append.mp hq2off with h | h
        · exact (h2 h).trans (List.sublist_append_left _ _)
        · rw [List.mem_singleton] at h
          subst h
          exact (List.singleton_sublist.mpr h1).append (List.Sublist.refl _)
      · have hne2 : e ≠ q2 := by
          by_cases hq2q : q2 ∈ s.queue
          · have hsub := h2 hq2q
            rw [hq] at hsub
            exact pair_sublist_head_ne hsub (hq ▸ hnd) hne
          · intro heq
            subst heq
            exact hq2q (hq ▸ List.mem_cons_self e t)
        by_cases heq1 : e = q1
        · subst heq1
          refine Or.inl ⟨List.mem_append.mpr (Or.inr (by simp)), ?_⟩
          intro hq2off
          rcases List.mem_append.mp hq2off with h | h
          · exact absurd h h1
          · rw [List.mem_singleton] at h
            exact absurd h.symm hne2
        · refine Or.inr ⟨?_, ?_⟩
          · intro hq2off
            rcases List.mem_append.mp hq2off with h | h
            · exact h1 h
            · rw [List.mem_singleton] at h
              exact hne2 h.symm
          · intro hq2q
            exact h2 hq2q

/-- Helper: the invariant carries through any allowed event trace. -/
theorem QInv_run {q1 q2 : Nat} (hne : q1 ≠ q2) :
    ∀ (evs : List QEvent) (s : QState), QInv q1 q2 s →
      AllowedFrom q1 q2 s evs → QInv q1 q2 (runQ s evs) := by
  intro evs
  induction evs with
  | nil => intro s h _; exact h
  | cons ev rest ih =>
    intro s h hall
    exact ih (stepQ s ev) (QInv_step hne h hall.1) hall.2

/-- Claim C4: wait-queue handoff is FIFO.  Starting from a state whose
duplicate-free queue holds Q1 ahead of Q2 (Q1 queued earlier), with Q2
not yet offered the tile, and running any sequence of queue events in
which newly enqueued entities are third parties not already queued and
Q1 never cancels before being offered: every departure offers the tile
to the entity at the head of the queue (first conjunct), and if Q2 has
been offered the tile by the end of the trace then Q1 was offered it
earlier (Q1 precedes Q2 in the offer history). -/
theorem wait_queue_fifo (q1 q2 : Nat) (hne : q1 ≠ q2) (s0 : QState)
    (hnd : s0.queue.Nodup) (hsub : [q1, q2].Sublist s0.queue)
    (hoff : q2 ∉ s0.offers)
    (evs : List QEvent) (hallowed : AllowedFrom q1 q2 s0 evs) :
    (∀ (s : QState) (e : Nat) (t : List Nat), s.queue = e :: t →
      (stepQ s .depart).offers = s.offers ++ [e]) ∧
    (q2 ∈ (runQ s0 evs).offers →
      q1 ∈ (runQ s0 evs).offers ∧ [q1, q2].Sublist (runQ s0 evs).offers) := by
  constructor
  · intro s e t hq
    unfold stepQ
    rw [hq]
  · intro hq2off
    have hinv := QInv_run hne evs s0 ⟨hnd, Or.inr ⟨hoff, fun _ => hsub⟩⟩ hallowed
    rcases hinv.2 with ⟨h1, h2⟩ | ⟨h1, _⟩
    · exact ⟨h1, h2 hq2off⟩
    · exact absurd hq2off h1

/-- Witness for C4: entities 1 then 2 wait for a tile; a departure
offers it to 1, entity 1 unqueues itself, a second departure offers it
to 2 — the offer history [1, 2] lists 1 strictly before 2. -/
theorem wait_queue_fifo_witness :
    (∀ (s : QState) (e : Nat) (t : List Nat), s.queue = e :: t →
      (stepQ s .depart).offers = s.offers ++ [e]) ∧
    (2 ∈ (runQ ⟨[1, 2], []⟩ [.depart, .unqueue 1, .depart]).offers →
      1 ∈ (runQ ⟨[1, 2], []⟩ [.depart, .unqueue 1, .depart]).offers ∧
      [1, 2].Sublist (runQ ⟨[1, 2], []⟩ [.depart, .unqueue 1, .depart]).offers) :=
  wait_queue_fifo 1 2 (by decide) ⟨[1, 2], []⟩ (by decide) (by decide) (by decide)
    [.depart, .unqueue 1, .depart]
    ⟨trivial, Or.inr (by decide), trivial, trivial⟩

/-! ### C5: outside-in blast ordering -/

/-- Claim C5: the coordinate lists built by `BlastPattern` for the two
blast diagrams are the outside-in enumerations shown (conjuncts 1-2);
for any two offsets of a pattern lying in the same row or column on the
same side of the center with the first strictly farther out, the
farther one occurs earlier in the list (the pair is a sublist in that
order, conjunct 3); consequently, when a detonation at `center` blasts
occupants at both offsets, the farther occupant's `on_blasted` is
invoked before the nearer one's (conjunct 4). -/
theorem blast_pattern_outside_in (pat : String)
    (hpat : pat = blast_pattern_1 ∨ pat = blast_pattern_2)
    (d1 d2 : Int × Int) (hfe : fartherEarlierPair d1 d2)
    (h1 : d1 ∈ blastCoordinates pat) (h2 : d2 ∈ blastCoordinates pat)
    (occ : List ((Int × Int) × Nat)) (center : Int × Int) (b1 b2 : Nat)
    (hb1 : occLookup occ (center.1 + d1.1, center.2 + d1.2) = some b1)
    (hb2 : occLookup occ (center.1 + d2.1, center.2 + d2.2) = some b2) :
    (blastCoordinates blast_pattern_1 =
      [(0, -1), (0, 1), (-1, 0), (1, 0), (0, 0)]) ∧
    (blastCoordinates blast_pattern_2 =
      [(0, -2), (0, 2), (-1, -1), (1, -1), (0, -1), (-1, 1), (1, 1), (0, 1),
       (-2, 0), (2, 0), (-1, 0), (1, 0), (0, 0)]) ∧
    [d1, d2].Sublist (blastCoordinates pat) ∧
    [b1, b2].Sublist (blastVictims occ center (blastCoordinates pat)) := by
  have key : ∀ u1 ∈ blastCoordinates pat, ∀ u2 ∈ blastCoordinates pat,
      fartherEarlierPair u1 u2 → [u1, u2].Sublist (blastCoordinates pat) := by
    rcases hpat with h | h <;> subst h <;> decide
  have hsub := key d1 h1 d2 h2 hfe
  refine ⟨by decide, by decide, hsub, ?_⟩
  have hfm : ([d1, d2].filterMap fun delta =>
      occLookup occ (center.1 + delta.1, center.2 + delta.2)) = [b1, b2] := by
    simp [List.filterMap_cons, hb1, hb2]
  have hmono := hsub.filterMap
    (fun delta => occLookup occ (center.1 + delta.1, center.2 + delta.2))
  rw [hfm] at hmono
  exact hmono

/-- Witness for C5: in pattern 1, offset (0, -1) lies in the same
column as the center offset (0, 0) and is farther out; with bomb 77 one
tile north of a detonation at (5, 5) and bomb 88 at the center tile,
the blast loop reaches 77 before 88. -/
theorem blast_pattern_outside_in_witness :
    (blastCoordinates blast_pattern_1 =
      [(0, -1), (0, 1), (-1, 0), (1, 0), (0, 0)]) ∧
    (blastCoordinates blast_pattern_2 =
      [(0, -2), (0, 2), (-1, -1), (1, -1), (0, -1), (-1, 1), (1, 1), (0, 1),
       (-2, 0), (2, 0), (-1, 0), (1, 0), (0, 0)]) ∧
    [((0 : Int), (-1 : Int)), ((0 : Int), (0 : Int))].Sublist
      (blastCoordinates blast_pattern_1) ∧
    [77, 88].Sublist
      (blastVictims [((5, 4), 77), ((5, 5), 88)] (5, 5)
        (blastCoordinates blast_pattern_1)) :=
  blast_pattern_outside_in blast_pattern_1 (Or.inl rfl) (0, -1) (0, 0)
    (by decide) (by decide) (by decide)
    [((5, 4), 77), ((5, 5), 88)] (5, 5) 77 88 (by decide) (by decide)
